import Mathlib

/-!
Verification of the cargo-dl acquisition pipeline (src/main.rs).

The development shallowly embeds the per-spec worker of `App::run`
(src/main.rs lines 80-304) together with the parts of its collaborators
that the program relies on:

* the semver precedence order and the crate-level pre-release gate of the
  `semver` crate (used through `semver::Version` / `semver::VersionReq`);
* the registry index view (`crates_index::Version`), reduced to the four
  fields the program reads: name, version string, yanked flag, checksum;
* the filesystem effects of `std::fs::copy` and `std::fs::write`.

External collaborators whose internals the program never inspects are
passed in as parameters: the semver string parser
(`semver::Version::parse`), the per-comparator interval test of the
`semver` crate (`matches_impl`), the SHA-256 digest (`sha2::Sha256`), and
the HTTP response body.
-/

namespace CargoDl

/-- A semver pre-release or build identifier, as in the `semver` crate:
either purely numeric (parsed without leading zeroes) or alphanumeric
(kept as its list of ASCII codes; semver identifiers are ASCII-only, so
byte order and character order agree). -/
inductive Identifier where
  | numeric (n : Nat)
  | alphanumeric (s : List Nat)
deriving DecidableEq

/-- A parsed semver version, as in `semver::Version`. -/
structure Version where
  major : Nat
  minor : Nat
  patch : Nat
  pre : List Identifier
  build : List Identifier
deriving DecidableEq

/-! ### Ordering helpers -/

theorem then_eq_lt {o p : Ordering} :
    o.then p = .lt ↔ o = .lt ∨ (o = .eq ∧ p = .lt) := by
  cases o <;> simp [Ordering.then]

theorem then_eq_eq {o p : Ordering} :
    o.then p = .eq ↔ o = .eq ∧ p = .eq := by
  cases o <;> simp [Ordering.then]

theorem then_swap_distrib {o p : Ordering} :
    (o.then p).swap = o.swap.then p.swap := by
  cases o <;> rfl

theorem swap_eq_lt {o : Ordering} : o.swap = .lt ↔ o = .gt := by
  cases o <;> simp [Ordering.swap]

theorem swap_eq_eq {o : Ordering} : o.swap = .eq ↔ o = .eq := by
  cases o <;> simp [Ordering.swap]

/-! ### Comparators, following the `Ord` implementations of the `semver` crate -/

/-- Comparison of natural numbers as an `Ordering`
(the comparison `u64::cmp` used by the `semver` crate). -/
def natCmp (a b : Nat) : Ordering :=
  if a < b then .lt else if a = b then .eq else .gt

/-- Lexicographic comparison of lists by a base comparator: element by
element, a strict prefix comparing less.  This is the common shape of the
dotted-identifier loops in `Ord for Prerelease` / `Ord for BuildMetadata`
of the `semver` crate. -/
def lexCmp (f : α → α → Ordering) : List α → List α → Ordering
  | [], [] => .eq
  | [], _ :: _ => .lt
  | _ :: _, [] => .gt
  | a :: as, b :: bs => (f a b).then (lexCmp f as bs)

/-- Identifier comparison of the `semver` crate: numeric identifiers
compare numerically and sort below alphanumeric ones; alphanumeric
identifiers compare lexically in ASCII order. -/
def Identifier.cmp : Identifier → Identifier → Ordering
  | .numeric a, .numeric b => natCmp a b
  | .numeric _, .alphanumeric _ => .lt
  | .alphanumeric _, .numeric _ => .gt
  | .alphanumeric a, .alphanumeric b => lexCmp natCmp a b

/-- Pre-release ordering (`Ord for Prerelease` in the `semver` crate): the
empty pre-release — a stable version — has the highest precedence; two
non-empty pre-releases compare lexicographically by identifier. -/
def preCmp : List Identifier → List Identifier → Ordering
  | [], [] => .eq
  | [], _ :: _ => .gt
  | _ :: _, [] => .lt
  | a :: as, b :: bs => lexCmp Identifier.cmp (a :: as) (b :: bs)

/-- Build-metadata ordering (`Ord for BuildMetadata` in the `semver`
crate): plain lexicographic comparison, the empty metadata sorting
first. -/
def buildCmp (a b : List Identifier) : Ordering :=
  lexCmp Identifier.cmp a b

/-- Total order on versions (`Ord for semver::Version`): major, minor,
patch, pre-release, then build metadata. -/
def Version.cmp (a b : Version) : Ordering :=
  (natCmp a.major b.major).then
    ((natCmp a.minor b.minor).then
      ((natCmp a.patch b.patch).then
        ((preCmp a.pre b.pre).then (buildCmp a.build b.build))))

/-! ### Lawfulness of the comparators

`WeakCmp` collects exactly what is needed to know that sorting by a
comparator puts a maximal element first: the comparator is antisymmetric
under `Ordering.swap`, `eq` results are congruences, and `lt` is
transitive. -/

structure WeakCmp (c : α → α → Ordering) : Prop where
  swap : ∀ a b, c a b = (c b a).swap
  eq_congr : ∀ {a b}, c a b = .eq → ∀ d, c a d = c b d
  lt_trans : ∀ {a b d}, c a b = .lt → c b d = .lt → c a d = .lt

theorem WeakCmp.eq_congr_right {c : α → α → Ordering} (h : WeakCmp c)
    {a b : α} (hab : c a b = .eq) (d : α) : c d a = c d b := by
  rw [h.swap d a, h.swap d b, h.eq_congr hab d]

theorem WeakCmp.cmp_refl {c : α → α → Ordering} (h : WeakCmp c) (a : α) :
    c a a = .eq := by
  have hs := h.swap a a
  cases hc : c a a
  · rw [hc] at hs; simp [Ordering.swap] at hs
  · rfl
  · rw [hc] at hs; simp [Ordering.swap] at hs

theorem WeakCmp.gt_iff {c : α → α → Ordering} (h : WeakCmp c) (a b : α) :
    c a b = .gt ↔ c b a = .lt := by
  rw [h.swap a b]
  cases c b a <;> simp [Ordering.swap]

theorem WeakCmp.le_trans {c : α → α → Ordering} (h : WeakCmp c) {a b d : α}
    (hab : c a b ≠ .lt) (hbd : c b d ≠ .lt) : c a d ≠ .lt := by
  cases hab' : c a b with
  | lt => exact absurd hab' hab
  | eq => rw [h.eq_congr hab']; exact hbd
  | gt =>
    cases hbd' : c b d with
    | lt => exact absurd hbd' hbd
    | eq => rw [h.eq_congr_right hbd'] at hab; exact hab
    | gt =>
      intro had
      have h1 : c d b = .lt := (h.gt_iff b d).mp hbd'
      have h2 : c b a = .lt := (h.gt_iff a b).mp hab'
      have h3 : c d a = .lt := h.lt_trans h1 h2
      have h4 : c a d = .gt := (h.gt_iff a d).mpr h3
      rw [had] at h4
      exact Ordering.noConfusion h4

theorem WeakCmp.le_total {c : α → α → Ordering} (h : WeakCmp c) (a b : α) :
    c a b ≠ .lt ∨ c b a ≠ .lt := by
  cases hab : c a b with
  | lt =>
    right
    have : c b a = .gt := (h.gt_iff b a).mpr hab
    rw [this]
    intro hcon
    exact Ordering.noConfusion hcon
  | eq => left; intro hcon; exact Ordering.noConfusion hcon
  | gt => left; intro hcon; exact Ordering.noConfusion hcon

theorem WeakCmp.comap {c : β → β → Ordering} (h : WeakCmp c) (p : α → β) :
    WeakCmp (fun a b => c (p a) (p b)) where
  swap := fun a b => h.swap (p a) (p b)
  eq_congr := fun hab d => h.eq_congr hab (p d)
  lt_trans := fun hab hbd => h.lt_trans hab hbd

theorem WeakCmp.then_comp {c₁ c₂ : α → α → Ordering}
    (h₁ : WeakCmp c₁) (h₂ : WeakCmp c₂) :
    WeakCmp (fun a b => (c₁ a b).then (c₂ a b)) where
  swap := fun a b => by
    simp only [h₁.swap a b, h₂.swap a b, then_swap_distrib]
  eq_congr := by
    intro a b hab d
    obtain ⟨he₁, he₂⟩ := then_eq_eq.mp hab
    show (c₁ a d).then (c₂ a d) = (c₁ b d).then (c₂ b d)
    rw [h₁.eq_congr he₁ d, h₂.eq_congr he₂ d]
  lt_trans := by
    intro a b d hab hbd
    show (c₁ a d).then (c₂ a d) = .lt
    rcases then_eq_lt.mp hab with hab₁ | ⟨hab₁, hab₂⟩ <;>
      rcases then_eq_lt.mp hbd with hbd₁ | ⟨hbd₁, hbd₂⟩
    · exact then_eq_lt.mpr (Or.inl (h₁.lt_trans hab₁ hbd₁))
    · exact then_eq_lt.mpr (Or.inl (by rw [← h₁.eq_congr_right hbd₁ a]; exact hab₁))
    · exact then_eq_lt.mpr (Or.inl (by rw [h₁.eq_congr hab₁]; exact hbd₁))
    · refine then_eq_lt.mpr (Or.inr ⟨by rw [h₁.eq_congr hab₁]; exact hbd₁, ?_⟩)
      exact h₂.lt_trans hab₂ hbd₂

theorem natCmp_eq_lt {a b : Nat} : natCmp a b = .lt ↔ a < b := by
  simp only [natCmp]
  split
  · simp; assumption
  · split <;> simp <;> omega

theorem natCmp_eq_eq {a b : Nat} : natCmp a b = .eq ↔ a = b := by
  simp only [natCmp]
  split
  · simp; omega
  · split <;> simp <;> assumption

theorem natCmp_eq_gt {a b : Nat} : natCmp a b = .gt ↔ b < a := by
  simp only [natCmp]
  split
  · simp; omega
  · split <;> simp <;> omega

theorem weak_natCmp : WeakCmp natCmp where
  swap := by
    intro a b
    cases h : natCmp b a with
    | lt => rw [natCmp_eq_lt] at h; simp [Ordering.swap, natCmp_eq_gt.mpr h]
    | eq => rw [natCmp_eq_eq] at h; simp [Ordering.swap, natCmp_eq_eq.mpr h.symm]
    | gt => rw [natCmp_eq_gt] at h; simp [Ordering.swap, natCmp_eq_lt.mpr h]
  eq_congr := by
    intro a b hab d
    rw [natCmp_eq_eq.mp hab]
  lt_trans := by
    intro a b d hab hbd
    rw [natCmp_eq_lt] at hab hbd ⊢
    omega

theorem lexCmp_swap {f : α → α → Ordering} (hf : ∀ a b, f a b = (f b a).swap) :
    ∀ as bs, lexCmp f as bs = (lexCmp f bs as).swap
  | [], [] => rfl
  | [], _ :: _ => rfl
  | _ :: _, [] => rfl
  | a :: as, b :: bs => by
    simp only [lexCmp]
    rw [hf a b, lexCmp_swap hf as bs, then_swap_distrib]

theorem weak_lexCmp {f : α → α → Ordering} (hf : WeakCmp f) : WeakCmp (lexCmp f) where
  swap := lexCmp_swap hf.swap
  eq_congr := by
    intro as bs hab ds
    induction as generalizing bs ds with
    | nil =>
      cases bs with
      | nil => rfl
      | cons b bs => exact absurd hab (by simp [lexCmp])
    | cons a as ih =>
      cases bs with
      | nil => exact absurd hab (by simp [lexCmp])
      | cons b bs =>
        obtain ⟨he₁, he₂⟩ := then_eq_eq.mp hab
        cases ds with
        | nil => rfl
        | cons d ds =>
          show (f a d).then (lexCmp f as ds) = (f b d).then (lexCmp f bs ds)
          rw [hf.eq_congr he₁ d, ih he₂ ds]
  lt_trans := by
    intro as bs ds hab hbd
    induction as generalizing bs ds with
    | nil =>
      cases bs with
      | nil => exact absurd hab (by simp [lexCmp])
      | cons b bs =>
        cases ds with
        | nil => exact absurd hbd (by simp [lexCmp])
        | cons d ds => simp [lexCmp]
    | cons a as ih =>
      cases bs with
      | nil => exact absurd hab (by simp [lexCmp])
      | cons b bs =>
        cases ds with
        | nil => exact absurd hbd (by simp [lexCmp])
        | cons d ds =>
          show (f a d).then (lexCmp f as ds) = .lt
          rcases then_eq_lt.mp hab with hab₁ | ⟨hab₁, hab₂⟩ <;>
            rcases then_eq_lt.mp hbd with hbd₁ | ⟨hbd₁, hbd₂⟩
          · exact then_eq_lt.mpr (Or.inl (hf.lt_trans hab₁ hbd₁))
          · exact then_eq_lt.mpr (Or.inl (by rw [← hf.eq_congr_right hbd₁ a]; exact hab₁))
          · exact then_eq_lt.mpr (Or.inl (by rw [hf.eq_congr hab₁]; exact hbd₁))
          · exact then_eq_lt.mpr (Or.inr ⟨by rw [hf.eq_congr hab₁]; exact hbd₁, ih hab₂ hbd₂⟩)

theorem weak_idCmp : WeakCmp Identifier.cmp where
  swap := by
    intro a b
    cases a <;> cases b <;> simp [Identifier.cmp, Ordering.swap]
    · exact weak_natCmp.swap _ _
    · exact lexCmp_swap weak_natCmp.swap _ _
  eq_congr := by
    intro a b hab d
    cases a <;> cases b <;> simp [Identifier.cmp] at hab <;> cases d <;>
      simp only [Identifier.cmp]
    · rw [weak_natCmp.eq_congr hab]
    · rw [(weak_lexCmp weak_natCmp).eq_congr hab]
  lt_trans := by
    intro a b d hab hbd
    cases a <;> cases b <;> cases d <;>
      simp only [Identifier.cmp] at hab hbd ⊢ <;>
      first
      | rfl
      | exact Ordering.noConfusion hab
      | exact Ordering.noConfusion hbd
      | exact weak_natCmp.lt_trans hab hbd
      | exact (weak_lexCmp weak_natCmp).lt_trans hab hbd

theorem weak_preCmp : WeakCmp preCmp where
  swap := by
    intro a b
    cases a <;> cases b <;> simp only [preCmp] <;> first
      | rfl
      | exact lexCmp_swap weak_idCmp.swap _ _
  eq_congr := by
    intro a b hab d
    cases a with
    | nil =>
      cases b with
      | nil => rfl
      | cons b bs => exact Ordering.noConfusion hab
    | cons a as =>
      cases b with
      | nil => exact Ordering.noConfusion hab
      | cons b bs =>
        cases d with
        | nil => rfl
        | cons d ds => exact (weak_lexCmp weak_idCmp).eq_congr hab (d :: ds)
  lt_trans := by
    intro a b d hab hbd
    cases a <;> cases b <;> cases d <;> simp only [preCmp] at hab hbd ⊢ <;>
      first
      | rfl
      | exact Ordering.noConfusion hab
      | exact Ordering.noConfusion hbd
      | exact (weak_lexCmp weak_idCmp).lt_trans hab hbd

theorem weak_buildCmp : WeakCmp buildCmp := weak_lexCmp weak_idCmp

theorem weak_versionCmp : WeakCmp Version.cmp := by
  have h := ((weak_natCmp.comap Version.major).then_comp
    ((weak_natCmp.comap Version.minor).then_comp
      ((weak_natCmp.comap Version.patch).then_comp
        ((weak_preCmp.comap Version.pre).then_comp
          (weak_buildCmp.comap Version.build)))))
  exact h

/-! ### Version requirements (`semver::VersionReq`)

A requirement is a list of comparators, matched by `matches_req` of the
`semver` crate.  The per-comparator interval test (`matches_impl`, which
dispatches on the comparator operator) is an external detail the program
never inspects; it is carried as the function field `matchesImpl`.  The
crate-level pre-release gate of `matches_req` and the helper
`pre_is_compatible` are modelled exactly, because the selection behaviour
under the default requirement depends on them. -/

structure Comparator where
  major : Nat
  minor : Option Nat
  patch : Option Nat
  pre : List Identifier
  matchesImpl : Version → Bool

/-- `pre_is_compatible` from the `semver` crate. -/
def preIsCompatible (c : Comparator) (v : Version) : Bool :=
  c.major == v.major && c.minor == some v.minor && c.patch == some v.patch
    && !c.pre.isEmpty

def VersionReq : Type := List Comparator

/-- `matches_req` from the `semver` crate: every comparator must accept the
version, and a version carrying a pre-release tag additionally needs some
comparator with the same major.minor.patch and a pre-release tag of its
own. -/
def reqMatches (req : VersionReq) (v : Version) : Bool :=
  (List.all req fun c => c.matchesImpl v)
    && (v.pre.isEmpty || List.any req fun c => preIsCompatible c v)

/-- `semver::VersionReq::STAR`, the requirement with no comparators; it is
the default used at src/main.rs line 123 when the spec carries no version
requirement. -/
def star : VersionReq := ([] : List Comparator)

/-! ### The registry index view

`crates_index::Version` as the program reads it: the version string, the
yanked flag, the crate name and the recorded SHA-256 checksum bytes. -/

structure IndexVersion where
  name : String
  vers : String
  yanked : Bool
  checksum : List Nat
deriving DecidableEq

/-! ### The version resolver (src/main.rs lines 123-182) -/

/-- The filtered candidate list of src/main.rs lines 124-140: keep
non-yanked releases (or all of them under `allow_yanked`), drop releases
whose version string does not parse as semver, and keep the releases that
satisfy the requirement. -/
def candidates (allowYanked : Bool) (parse : String → Option Version)
    (req : VersionReq) (rels : List IndexVersion) :
    List (Version × IndexVersion) :=
  ((rels.filter fun v => allowYanked || !v.yanked).filterMap
      fun v => (parse v.vers).map fun num => (num, v)).filter
    fun x => reqMatches req x.1

/-- The sort predicate induced by the comparator
`|(a, _), (b, _)| a.cmp(b).reverse()` passed to `sort_by` at src/main.rs
line 141: `x` may stay before `y` exactly when the reversed comparison is
not `gt`, i.e. when the version of `x` is at least the version of `y`. -/
def descLE (x y : Version × IndexVersion) : Bool :=
  decide (Version.cmp x.1 y.1 ≠ Ordering.lt)

/-- The candidate list sorted by version descending (src/main.rs
line 141). -/
def sortedCandidates (allowYanked : Bool) (parse : String → Option Version)
    (req : VersionReq) (rels : List IndexVersion) :
    List (Version × IndexVersion) :=
  (candidates allowYanked parse req rels).mergeSort descLE

/-- The selected release: the first element of the sorted candidate list
(src/main.rs line 150). -/
def resolve (allowYanked : Bool) (parse : String → Option Version)
    (req : VersionReq) (rels : List IndexVersion) :
    Option (Version × IndexVersion) :=
  (sortedCandidates allowYanked parse req rels).head?

/-- The diagnostic recomputation of src/main.rs lines 153-172: the same
parse-and-match pipeline, but over only the yanked releases, regardless of
`allow_yanked`. -/
def yankedCandidates (parse : String → Option Version) (req : VersionReq)
    (rels : List IndexVersion) : List (Version × IndexVersion) :=
  ((rels.filter fun v => v.yanked).filterMap
      fun v => (parse v.vers).map fun num => (num, v)).filter
    fun x => reqMatches req x.1

/-- The yanked matches sorted by version descending (src/main.rs
line 170). -/
def sortedYanked (parse : String → Option Version) (req : VersionReq)
    (rels : List IndexVersion) : List (Version × IndexVersion) :=
  (yankedCandidates parse req rels).mergeSort descLE

/-- The failure message built at src/main.rs lines 173-177: the base text,
extended - when some yanked release matched - with the name and version of
the highest such release. -/
def noMatchMessage (parse : String → Option Version) (req : VersionReq)
    (rels : List IndexVersion) : String :=
  match (sortedYanked parse req rels).head? with
  | some x =>
      "no matching version found" ++ "; the yanked version " ++ x.2.name
        ++ " " ++ x.2.vers ++ " matched, use `--allow-yanked` to download it"
  | none => "no matching version found"

theorem descLE_trans : ∀ (a b c : Version × IndexVersion),
    descLE a b → descLE b c → descLE a c := by
  intro a b c hab hbc
  simp only [descLE, decide_eq_true_eq] at hab hbc ⊢
  exact weak_versionCmp.le_trans hab hbc

theorem descLE_total : ∀ (a b : Version × IndexVersion),
    descLE a b || descLE b a := by
  intro a b
  simp only [descLE, Bool.or_eq_true, decide_eq_true_eq]
  exact weak_versionCmp.le_total a.1 b.1

theorem mem_candidates {allowYanked : Bool} {parse : String → Option Version}
    {req : VersionReq} {rels : List IndexVersion} {x : Version × IndexVersion} :
    x ∈ candidates allowYanked parse req rels ↔
      x.2 ∈ rels ∧ (allowYanked || !x.2.yanked) = true ∧
        parse x.2.vers = some x.1 ∧ reqMatches req x.1 = true := by
  obtain ⟨n, r⟩ := x
  unfold candidates
  simp only [List.mem_filter, List.mem_filterMap]
  constructor
  · rintro ⟨⟨v, ⟨hv, hyank⟩, hmap⟩, hmatch⟩
    obtain ⟨num, hparse, heq⟩ := Option.map_eq_some'.mp hmap
    obtain ⟨heq₁, heq₂⟩ := Prod.mk.injEq .. ▸ heq
    subst heq₁
    subst heq₂
    exact ⟨hv, hyank, hparse, hmatch⟩
  · rintro ⟨hv, hyank, hparse, hmatch⟩
    refine ⟨⟨r, ⟨hv, hyank⟩, ?_⟩, hmatch⟩
    rw [hparse]
    rfl

/-- C1: for a crate with at least one release that survives the yank
filter, parses as semver and satisfies the requirement (the `*`
requirement standing in when none is given), the resolver returns a
release of the candidate set whose parsed version is maximal in the semver
order: the pipeline filters yanked releases, drops unparseable version
strings, keeps requirement matches, sorts descending and takes the
first. -/
theorem resolver_selects_max (allowYanked : Bool)
    (parse : String → Option Version) (req : VersionReq)
    (rels : List IndexVersion)
    (hne : candidates allowYanked parse req rels ≠ []) :
    ∃ num rel,
      resolve allowYanked parse req rels = some (num, rel) ∧
      (num, rel) ∈ candidates allowYanked parse req rels ∧
      (∀ x ∈ candidates allowYanked parse req rels,
        Version.cmp num x.1 ≠ .lt) ∧
      (∀ x : Version × IndexVersion,
        x ∈ candidates allowYanked parse req rels ↔
          x.2 ∈ rels ∧ (allowYanked || !x.2.yanked) = true ∧
            parse x.2.vers = some x.1 ∧ reqMatches req x.1 = true) := by
  have hne' : sortedCandidates allowYanked parse req rels ≠ [] := by
    unfold sortedCandidates
    intro hcon
    apply hne
    have := (List.mergeSort_perm
      (candidates allowYanked parse req rels) descLE).length_eq
    rw [hcon] at this
    exact List.eq_nil_of_length_eq_zero this.symm
  obtain ⟨hd, tl, heq⟩ := List.exists_cons_of_ne_nil hne'
  obtain ⟨num, rel⟩ := hd
  refine ⟨num, rel, ?_, ?_, ?_, fun x => mem_candidates⟩
  · unfold resolve
    rw [heq]
    rfl
  · have : (num, rel) ∈ sortedCandidates allowYanked parse req rels := by
      rw [heq]; exact List.mem_cons_self _ _
    unfold sortedCandidates at this
    exact List.mem_mergeSort.mp this
  · intro x hx
    have hxs : x ∈ sortedCandidates allowYanked parse req rels :=
      List.mem_mergeSort.mpr hx
    rw [heq] at hxs
    have hsorted := List.sorted_mergeSort descLE_trans descLE_total
      (candidates allowYanked parse req rels)
    rw [show List.mergeSort (candidates allowYanked parse req rels) descLE
        = sortedCandidates allowYanked parse req rels from rfl, heq] at hsorted
    rcases List.mem_cons.mp hxs with hx1 | hx2
    · rw [hx1]
      intro hcon
      rw [weak_versionCmp.cmp_refl] at hcon
      exact Ordering.noConfusion hcon
    · have := (List.pairwise_cons.mp hsorted).1 x hx2
      simpa [descLE] using this

/-- Fixed inputs for the witnesses: a two-release index for the crate
`demo`, with a parse table sending each version string to its parsed
form. -/
def wV100 : Version := ⟨1, 0, 0, [], []⟩

def wV110 : Version := ⟨1, 1, 0, [], []⟩

def wRel100 : IndexVersion := ⟨"demo", "1.0.0", false, [1, 2]⟩

def wRel110 : IndexVersion := ⟨"demo", "1.1.0", false, [3, 4]⟩

def wParse : String → Option Version := fun s =>
  if s = "1.0.0" then some wV100
  else if s = "1.1.0" then some wV110
  else none

theorem resolver_selects_max_witness :
    ∃ num rel,
      resolve true wParse star [wRel100, wRel110] = some (num, rel) ∧
      (num, rel) ∈ candidates true wParse star [wRel100, wRel110] ∧
      (∀ x ∈ candidates true wParse star [wRel100, wRel110],
        Version.cmp num x.1 ≠ .lt) ∧
      (∀ x : Version × IndexVersion,
        x ∈ candidates true wParse star [wRel100, wRel110] ↔
          x.2 ∈ [wRel100, wRel110] ∧ (true || !x.2.yanked) = true ∧
            wParse x.2.vers = some x.1 ∧ reqMatches star x.1 = true) :=
  resolver_selects_max true wParse star [wRel100, wRel110] (by decide)

/-! ### The acquisition workflow (src/main.rs lines 80-304)

The per-spec worker closure (lines 101-272) is embedded as a function from
its inputs to an outcome, the sequence of observable actions it performs,
and the resulting file contents.  Fallible filesystem reads of the cached
archive are modelled through the file map; other I/O (the HTTP transport,
the progress bar) is modelled as always succeeding, which covers exactly
the seven terminating paths of the worker. -/

/-- The per-fetch buffer cap, `CRATE_SIZE_LIMIT` at src/main.rs line 13. -/
def CRATE_SIZE_LIMIT : Nat := 40 * 1024 * 1024

/-- The progress-bar templates of src/main.rs lines 15-19. -/
inductive Style where
  | spinner
  | success
  | failure
  | download
deriving DecidableEq

/-- Observable worker actions, in program order: progress-bar style
changes and finishes, the HTTP GET, the SHA-256 digest comparison over a
given buffer, and the three materialisation effects. -/
inductive Event where
  | barSetStyle (s : Style)
  | barFinish (msg : String)
  | httpGet
  | verify (data : List Nat)
  | copyFile (src dst : String)
  | writeFile (dst : String) (data : List Nat)
  | unpackArchive (dst : String)
deriving DecidableEq

/-- Worker outcome, the join value of one spec thread
(`LoggedError` marks failures already rendered on the progress line). -/
inductive Outcome where
  | succeeded
  | userReportedFailure
  | propagated (msg : String)
deriving DecidableEq

/-- The flags of the `App` structure that the worker reads
(src/main.rs lines 30-65; `cache` is true unless `--no-cache` was
given). -/
structure Config where
  extract : Bool
  output : Option String
  allowYanked : Bool
  cache : Bool

/-- Modelled from the spec: a `PackageIdSpec` (module `package_id_spec`,
not part of the sources at hand) is a crate name together with an
optional semver requirement. -/
structure Spec where
  name : String
  versionReq : Option VersionReq

/-- The collaborators of one worker run: the release list the index holds
for the crate name (none when the crate is unknown), the semver parser,
the result of the registry-cache probe (module `cache`, not part of the
sources at hand; modelled from the spec as the path of an existing cached
archive, or none), the HTTP response body and its Content-Length header,
the SHA-256 digest function, and the file contents by path. -/
structure WorkerEnv where
  krate : Option (List IndexVersion)
  parse : String → Option Version
  cacheHit : Option String
  body : List Nat
  contentLength : Option Nat
  digest : List Nat → List Nat
  fs : String → Option (List Nat)

/-- Result of one worker: outcome, observable actions, resulting files. -/
structure WorkerResult where
  outcome : Outcome
  events : List Event
  fs : String → Option (List Nat)

/-- Overwriting file update: per the documented contract of
`std::fs::write` and `std::fs::copy`, the destination is created if
absent and its contents are replaced entirely if present. -/
def fsWrite (fs : String → Option (List Nat)) (p : String)
    (bytes : List Nat) : String → Option (List Nat) :=
  fun q => if q = p then some bytes else fs q

/-- The output path of src/main.rs lines 186-190: the explicit `--output`
path when given, else `NAME-VERSION` in extract mode, else
`NAME-VERSION.crate`. -/
def outputPath (cfg : Config) (version : IndexVersion) : String :=
  cfg.output.getD
    (if cfg.extract then version.name ++ "-" ++ version.vers
     else version.name ++ "-" ++ version.vers ++ ".crate")

/-- The terminal success message `written NAME VERSION to OUTPUT`
(src/main.rs lines 219 and 267; the ANSI colouring applied by the
`stylish` crate is not modelled). -/
def writtenMsg (name vers output : String) : String :=
  "written " ++ name ++ " " ++ vers ++ " to " ++ output

/-- The terminal success message `extracted NAME VERSION to OUTPUT`
(src/main.rs lines 213 and 261; ANSI colouring not modelled). -/
def extractedMsg (name vers output : String) : String :=
  "extracted " ++ name ++ " " ++ vers ++ " to " ++ output

/-- The per-spec worker closure of src/main.rs lines 101-272.

Control flow, in source order: look the crate up in the index (lines
109-116); resolve the version and build the yanked-version diagnostic on
failure (lines 123-181); compute the output path (lines 186-190); probe
the registry cache unless disabled (lines 192-198); on a cache hit,
extract or copy the cached archive (lines 200-221); otherwise fetch at
most `CRATE_SIZE_LIMIT` bytes of the response body (lines 225-237),
compare the SHA-256 digest against the recorded checksum (lines 242-248),
and extract or write the buffer (lines 252-268).  A failed read of the
cached file propagates the error without finishing the progress line,
mirroring the `?` operator on `File::open` and `fs::copy`. -/
def worker (cfg : Config) (spec : Spec) (env : WorkerEnv) : WorkerResult :=
  match env.krate with
  | none =>
      ⟨.userReportedFailure,
       [.barSetStyle .failure,
        .barFinish "could not find crate in the index"], env.fs⟩
  | some rels =>
      let req := spec.versionReq.getD star
      match resolve cfg.allowYanked env.parse req rels with
      | none =>
          ⟨.userReportedFailure,
           [.barSetStyle .failure,
            .barFinish (noMatchMessage env.parse req rels)], env.fs⟩
      | some (_num, version) =>
          let output := outputPath cfg version
          let cached := if cfg.cache then env.cacheHit else none
          match cached with
          | some path =>
              match env.fs path with
              | none => ⟨.propagated "io error", [], env.fs⟩
              | some bytes =>
                  if cfg.extract then
                    ⟨.succeeded,
                     [.barSetStyle .download, .unpackArchive output,
                      .barSetStyle .success,
                      .barFinish (extractedMsg version.name version.vers output)],
                     env.fs⟩
                  else
                    ⟨.succeeded,
                     [.copyFile path output, .barSetStyle .success,
                      .barFinish (writtenMsg version.name version.vers output)],
                     fsWrite env.fs output bytes⟩
          | none =>
              let data := env.body.take CRATE_SIZE_LIMIT
              let dlEvents := match env.contentLength with
                | some _ => [Event.httpGet, Event.barSetStyle .download]
                | none => [Event.httpGet]
              if env.digest data == version.checksum then
                if cfg.extract then
                  ⟨.succeeded,
                   dlEvents ++
                     [.barSetStyle .spinner, .verify data,
                      .barSetStyle .download, .unpackArchive output,
                      .barSetStyle .success,
                      .barFinish (extractedMsg version.name version.vers output)],
                   env.fs⟩
                else
                  ⟨.succeeded,
                   dlEvents ++
                     [.barSetStyle .spinner, .verify data,
                      .writeFile output data, .barSetStyle .success,
                      .barFinish (writtenMsg version.name version.vers output)],
                   fsWrite env.fs output data⟩
              else
                ⟨.userReportedFailure,
                 dlEvents ++
                   [.barSetStyle .spinner, .verify data,
                    .barSetStyle .failure, .barFinish "invalid checksum"],
                 env.fs⟩

/-- The styles in force at each `finish` call of an event list, given the
style the bar starts with: one entry per finish, in order. -/
def finishStyles (cur : Style) : List Event → List Style
  | [] => []
  | .barSetStyle s :: es => finishStyles s es
  | .barFinish _ :: es => cur :: finishStyles cur es
  | _ :: es => finishStyles cur es

/-! ### The orchestrator (src/main.rs lines 80-304) -/

/-- Observable orchestrator actions: creating the multi-line progress
display, updating the registry index (with its dedicated bar), adding a
per-spec bar, and running one worker. -/
inductive OrchEvent where
  | displayCreated
  | indexUpdated
  | barAdded
  | workerRun (es : List Event)
deriving DecidableEq

/-- Outcome aggregation of src/main.rs lines 282-303: the first propagated
error is rethrown with the context `could not acquire NAME`; otherwise any
user-reported failure yields the `LoggedError` sentinel. -/
def runAggregate (results : List (Spec × WorkerResult)) :
    Except String Unit :=
  match results.find? (fun r =>
      match r.2.outcome with
      | .propagated _ => true
      | _ => false) with
  | some r => .error ("could not acquire " ++ r.1.name)
  | none =>
      if results.any (fun r => r.2.outcome == Outcome.userReportedFailure)
      then .error "LoggedError"
      else .ok ()

/-- `App::run` (src/main.rs lines 80-304): the up-front `--output` guard,
then the progress display, the index refresh, one bar and one worker per
spec, and outcome aggregation.  The worker threads run concurrently in the
program; their per-spec results and events are independent, and are listed
here in spawn order. -/
def run (cfg : Config) (specs : List Spec) (envs : Spec → WorkerEnv) :
    Except String Unit × List OrchEvent :=
  if 2 ≤ specs.length ∧ cfg.output.isSome = true then
    (.error "cannot use --output with multiple crates", [])
  else
    let results := specs.map fun s => (s, worker cfg s (envs s))
    (runAggregate results,
     OrchEvent.displayCreated :: OrchEvent.barAdded :: OrchEvent.indexUpdated ::
       (results.map fun r =>
         [OrchEvent.barAdded, OrchEvent.workerRun r.2.events]).flatten)

/-! ### Helpers for evaluating the resolver on concrete inputs -/

theorem resolve_of_candidates_single {allowYanked : Bool}
    {parse : String → Option Version} {req : VersionReq}
    {rels : List IndexVersion} {x : Version × IndexVersion}
    (h : candidates allowYanked parse req rels = [x]) :
    resolve allowYanked parse req rels = some x := by
  unfold resolve sortedCandidates
  rw [h, List.mergeSort_singleton]
  rfl

theorem resolve_of_candidates_nil {allowYanked : Bool}
    {parse : String → Option Version} {req : VersionReq}
    {rels : List IndexVersion}
    (h : candidates allowYanked parse req rels = []) :
    resolve allowYanked parse req rels = none := by
  unfold resolve sortedCandidates
  rw [h, List.mergeSort_nil]
  rfl

theorem resolve_wdemo : resolve false wParse star [wRel100] =
    some (wV100, wRel100) :=
  resolve_of_candidates_single (by decide)

/-- Membership in the yanked diagnostic list, characterised. -/
theorem mem_yankedCandidates {parse : String → Option Version}
    {req : VersionReq} {rels : List IndexVersion}
    {x : Version × IndexVersion} :
    x ∈ yankedCandidates parse req rels ↔
      x.2 ∈ rels ∧ x.2.yanked = true ∧
        parse x.2.vers = some x.1 ∧ reqMatches req x.1 = true := by
  obtain ⟨n, r⟩ := x
  unfold yankedCandidates
  simp only [List.mem_filter, List.mem_filterMap]
  constructor
  · rintro ⟨⟨v, ⟨hv, hyank⟩, hmap⟩, hmatch⟩
    obtain ⟨num, hparse, heq⟩ := Option.map_eq_some'.mp hmap
    obtain ⟨heq₁, heq₂⟩ := Prod.mk.injEq .. ▸ heq
    subst heq₁
    subst heq₂
    exact ⟨hv, hyank, hparse, hmatch⟩
  · rintro ⟨hv, hyank, hparse, hmatch⟩
    refine ⟨⟨r, ⟨hv, hyank⟩, ?_⟩, hmatch⟩
    rw [hparse]
    rfl

/-! ### C2: checksum verification and the cache fast path -/

def cacheCfg : Config := ⟨false, none, false, true⟩

def demoSpec : Spec := ⟨"demo", none⟩

def cacheEnv : WorkerEnv :=
  ⟨some [wRel100], wParse, some "/cache/demo-1.0.0.crate", [], none,
   fun _ => [0],
   fun p => if p = "/cache/demo-1.0.0.crate" then some [9, 9] else none⟩

/-- C2 counterexample: on a registry-cache hit the worker copies the
cached archive to the output path and succeeds without ever computing a
SHA-256 digest - no verification event occurs, refuting the claim that
cache-hit bytes undergo the same checksum verification as fetched
bytes. -/
theorem cache_hit_skips_verification :
    (∀ d, Event.verify d ∉ (worker cacheCfg demoSpec cacheEnv).events) ∧
    Event.copyFile "/cache/demo-1.0.0.crate" "demo-1.0.0.crate"
      ∈ (worker cacheCfg demoSpec cacheEnv).events ∧
    (worker cacheCfg demoSpec cacheEnv).outcome = .succeeded := by
  have hw : worker cacheCfg demoSpec cacheEnv =
      ⟨.succeeded,
       [.copyFile "/cache/demo-1.0.0.crate" "demo-1.0.0.crate",
        .barSetStyle .success,
        .barFinish (writtenMsg "demo" "1.0.0" "demo-1.0.0.crate")],
       fsWrite cacheEnv.fs "demo-1.0.0.crate" [9, 9]⟩ := by
    unfold worker
    simp only [cacheEnv, demoSpec, cacheCfg, Option.getD_none]
    rw [resolve_wdemo]
    simp [outputPath, wRel100, cacheEnv]
  rw [hw]
  refine ⟨?_, ?_, rfl⟩
  · intro d
    simp
  · simp

/-- C2 amended: a SHA-256 verification happens only in the network-fetch
path and always over the fetched, possibly truncated, body; bytes served
from a registry-cache hit are copied or extracted without any checksum
verification, and the cache probe itself validates no checksum. -/
theorem verification_only_on_fetch_path (cfg : Config) (spec : Spec)
    (env : WorkerEnv) (d : List Nat)
    (h : Event.verify d ∈ (worker cfg spec env).events) :
    (if cfg.cache then env.cacheHit else none) = none ∧
    d = env.body.take CRATE_SIZE_LIMIT := by
  unfold worker at h
  cases hk : env.krate with
  | none => simp only [hk] at h; simp at h
  | some rels =>
    simp only [hk] at h
    cases hres : resolve cfg.allowYanked env.parse (spec.versionReq.getD star) rels with
    | none => simp only [hres] at h; simp at h
    | some x =>
      obtain ⟨num, version⟩ := x
      simp only [hres] at h
      cases hcache : (if cfg.cache then env.cacheHit else none) with
      | some path =>
        simp only [hcache] at h
        cases hfs : env.fs path with
        | none => simp only [hfs] at h; simp at h
        | some bytes =>
          simp only [hfs] at h
          cases hex : cfg.extract <;> simp only [hex] at h <;> simp at h
      | none =>
        refine ⟨rfl, ?_⟩
        simp only [hcache] at h
        cases hcl : env.contentLength <;> simp only [hcl] at h <;>
          cases hchk : (env.digest (List.take CRATE_SIZE_LIMIT env.body) == version.checksum) <;>
          simp only [hchk] at h <;>
          cases hex : cfg.extract <;> simp only [hex] at h <;>
          simp at h <;> exact h

def fetchCfg : Config := ⟨false, none, false, false⟩

def goodEnv : WorkerEnv :=
  ⟨some [wRel100], wParse, none, [1, 2], none, fun _ => [1, 2], fun _ => none⟩

theorem worker_goodEnv :
    worker fetchCfg demoSpec goodEnv =
      ⟨.succeeded,
       [.httpGet, .barSetStyle .spinner, .verify [1, 2],
        .writeFile "demo-1.0.0.crate" [1, 2], .barSetStyle .success,
        .barFinish (writtenMsg "demo" "1.0.0" "demo-1.0.0.crate")],
       fsWrite goodEnv.fs "demo-1.0.0.crate" [1, 2]⟩ := by
  unfold worker
  simp only [goodEnv, demoSpec, fetchCfg, Option.getD_none]
  rw [resolve_wdemo]
  have htake : List.take CRATE_SIZE_LIMIT [1, 2] = ([1, 2] : List Nat) := by
    rw [List.take_of_length_le]
    simp [CRATE_SIZE_LIMIT]
  simp [outputPath, wRel100, htake, goodEnv]

theorem verification_only_on_fetch_path_witness :
    Event.verify [1, 2] ∈ (worker fetchCfg demoSpec goodEnv).events ∧
    ((if fetchCfg.cache then goodEnv.cacheHit else none) = none ∧
      [1, 2] = goodEnv.body.take CRATE_SIZE_LIMIT) := by
  have hmem : Event.verify [1, 2] ∈ (worker fetchCfg demoSpec goodEnv).events := by
    rw [worker_goodEnv]
    simp
  exact ⟨hmem,
    verification_only_on_fetch_path fetchCfg demoSpec goodEnv [1, 2] hmem⟩

/-! ### C3: pre-releases under the default requirement -/

def preV : Version :=
  ⟨1, 0, 0, [.alphanumeric [97, 108, 112, 104, 97], .numeric 1], []⟩

def preRel : IndexVersion := ⟨"demo", "1.0.0-alpha.1", false, [5, 6]⟩

def preParse : String → Option Version := fun s =>
  if s = "1.0.0-alpha.1" then some preV else none

/-- C3 counterexample: a crate whose only release is not yanked and parses
as the pre-release 1.0.0-alpha.1 resolves to nothing under the default
requirement - the resolver fails with no matching version instead of
selecting the pre-release, refuting the claim that the bare requirement
matches pre-releases like stable versions. -/
theorem star_rejects_prerelease :
    preRel.yanked = false ∧ preParse preRel.vers = some preV ∧
    preV.pre ≠ [] ∧
    resolve false preParse star [preRel] = none := by
  refine ⟨rfl, by decide, by decide, ?_⟩
  exact resolve_of_candidates_nil (by decide)

/-- C3 amended: the default requirement (semver `*`, used when the spec
carries no version requirement) matches exactly the versions with an
empty pre-release tag, so the resolver never selects a pre-release under
it; a crate whose only releases are pre-releases fails with no matching
version.  The resolver applies no pre-release filter of its own - the
exclusion comes entirely from the requirement semantics. -/
theorem star_selects_only_stable (allowYanked : Bool)
    (parse : String → Option Version) (rels : List IndexVersion)
    (x : Version × IndexVersion)
    (h : resolve allowYanked parse star rels = some x) :
    (∀ v : Version, reqMatches star v = v.pre.isEmpty) ∧ x.1.pre = [] := by
  have hstar : ∀ v : Version, reqMatches star v = v.pre.isEmpty := by
    intro v
    simp [reqMatches, star]
  refine ⟨hstar, ?_⟩
  have hx : x ∈ sortedCandidates allowYanked parse star rels := by
    unfold resolve at h
    exact List.mem_of_mem_head? h
  have hx' : x ∈ candidates allowYanked parse star rels :=
    List.mem_mergeSort.mp hx
  have := (mem_candidates.mp hx').2.2.2
  rw [hstar] at this
  simpa using this

theorem star_selects_only_stable_witness :
    (∀ v : Version, reqMatches star v = v.pre.isEmpty) ∧ wV100.pre = [] :=
  star_selects_only_stable false wParse [wRel100] (wV100, wRel100)
    resolve_wdemo

/-! ### C4: checksum mismatch on the network-fetch path -/

/-- C4: on the network-fetch path, when the SHA-256 digest of the fetched
bytes differs from the recorded checksum, the worker finalises its
progress line with the failure style and the message `invalid checksum`,
returns the user-reported failure outcome, and leaves the filesystem
unchanged - no output file is created. -/
theorem checksum_mismatch_reported (cfg : Config) (spec : Spec)
    (env : WorkerEnv) (rels : List IndexVersion) (num : Version)
    (version : IndexVersion)
    (hk : env.krate = some rels)
    (hres : resolve cfg.allowYanked env.parse (spec.versionReq.getD star)
      rels = some (num, version))
    (hcache : (if cfg.cache then env.cacheHit else none) = none)
    (hbad : (env.digest (env.body.take CRATE_SIZE_LIMIT)
      == version.checksum) = false) :
    (worker cfg spec env).outcome = .userReportedFailure ∧
    (worker cfg spec env).events.getLast?
      = some (.barFinish "invalid checksum") ∧
    finishStyles .spinner (worker cfg spec env).events = [.failure] ∧
    (worker cfg spec env).fs = env.fs := by
  have hw : worker cfg spec env =
      ⟨.userReportedFailure,
       (match env.contentLength with
         | some _ => [Event.httpGet, Event.barSetStyle .download]
         | none => [Event.httpGet]) ++
         [.barSetStyle .spinner, .verify (env.body.take CRATE_SIZE_LIMIT),
          .barSetStyle .failure, .barFinish "invalid checksum"],
       env.fs⟩ := by
    unfold worker
    simp only [hk, hres, hcache, hbad]
    simp
  rw [hw]
  cases env.contentLength <;> simp [finishStyles]

def badEnv : WorkerEnv :=
  ⟨some [wRel100], wParse, none, [3], none, fun _ => [0], fun _ => none⟩

theorem checksum_mismatch_reported_witness :
    (worker fetchCfg demoSpec badEnv).outcome = .userReportedFailure ∧
    (worker fetchCfg demoSpec badEnv).events.getLast?
      = some (.barFinish "invalid checksum") ∧
    finishStyles .spinner (worker fetchCfg demoSpec badEnv).events
      = [.failure] ∧
    (worker fetchCfg demoSpec badEnv).fs = badEnv.fs :=
  checksum_mismatch_reported fetchCfg demoSpec badEnv [wRel100] wV100
    wRel100 rfl resolve_wdemo rfl (by decide)

/-! ### C5: the no-matching-version diagnostic -/

/-- C5: when the candidate set is empty the worker fails with the
user-reported outcome and finalises its line with the diagnostic message;
the diagnostic recomputes the requirement match over only the yanked
releases, regardless of `allow_yanked`, and when some yanked release
matches, the message names the highest one and instructs the user to pass
`--allow-yanked`; otherwise the message is exactly
`no matching version found`. -/
theorem no_match_reported (cfg : Config) (spec : Spec) (env : WorkerEnv)
    (rels : List IndexVersion)
    (hk : env.krate = some rels)
    (hres : resolve cfg.allowYanked env.parse (spec.versionReq.getD star)
      rels = none) :
    (worker cfg spec env).outcome = .userReportedFailure ∧
    (worker cfg spec env).events =
      [.barSetStyle .failure,
       .barFinish (noMatchMessage env.parse (spec.versionReq.getD star) rels)] ∧
    (∀ x, (sortedYanked env.parse (spec.versionReq.getD star) rels).head?
        = some x →
      noMatchMessage env.parse (spec.versionReq.getD star) rels =
        "no matching version found" ++ "; the yanked version " ++ x.2.name
          ++ " " ++ x.2.vers
          ++ " matched, use `--allow-yanked` to download it" ∧
      x.2 ∈ rels ∧ x.2.yanked = true ∧
      env.parse x.2.vers = some x.1 ∧
      reqMatches (spec.versionReq.getD star) x.1 = true) ∧
    (yankedCandidates env.parse (spec.versionReq.getD star) rels = [] →
      noMatchMessage env.parse (spec.versionReq.getD star) rels
        = "no matching version found") := by
  refine ⟨?_, ?_, ?_, ?_⟩
  · unfold worker
    simp only [hk, hres]
  · unfold worker
    simp only [hk, hres]
  · intro x hx
    have hmem : x ∈ yankedCandidates env.parse (spec.versionReq.getD star) rels := by
      have := List.mem_of_mem_head? hx
      unfold sortedYanked at this
      exact List.mem_mergeSort.mp this
    obtain ⟨h1, h2, h3, h4⟩ := mem_yankedCandidates.mp hmem
    refine ⟨?_, h1, h2, h3, h4⟩
    unfold noMatchMessage
    rw [hx]
  · intro hnil
    unfold noMatchMessage sortedYanked
    rw [hnil, List.mergeSort_nil]
    rfl

def yankedRel : IndexVersion := ⟨"demo", "1.0.0", true, [1, 2]⟩

def yankedEnv : WorkerEnv :=
  ⟨some [yankedRel], wParse, none, [], none, fun _ => [0], fun _ => none⟩

theorem no_match_reported_witness :
    (worker fetchCfg demoSpec yankedEnv).outcome = .userReportedFailure ∧
    (worker fetchCfg demoSpec yankedEnv).events =
      [.barSetStyle .failure,
       .barFinish (noMatchMessage yankedEnv.parse
         (demoSpec.versionReq.getD star) [yankedRel])] ∧
    (∀ x, (sortedYanked yankedEnv.parse (demoSpec.versionReq.getD star)
        [yankedRel]).head? = some x →
      noMatchMessage yankedEnv.parse (demoSpec.versionReq.getD star)
          [yankedRel] =
        "no matching version found" ++ "; the yanked version " ++ x.2.name
          ++ " " ++ x.2.vers
          ++ " matched, use `--allow-yanked` to download it" ∧
      x.2 ∈ [yankedRel] ∧ x.2.yanked = true ∧
      yankedEnv.parse x.2.vers = some x.1 ∧
      reqMatches (demoSpec.versionReq.getD star) x.1 = true) ∧
    (yankedCandidates yankedEnv.parse (demoSpec.versionReq.getD star)
        [yankedRel] = [] →
      noMatchMessage yankedEnv.parse (demoSpec.versionReq.getD star)
        [yankedRel] = "no matching version found") :=
  no_match_reported fetchCfg demoSpec yankedEnv [yankedRel] rfl
    (resolve_of_candidates_nil (by decide))

/-! ### C6: the 40 MiB fetch cap -/

/-- C6: on the network-fetch path at most `CRATE_SIZE_LIMIT` bytes of the
response body are read into the buffer; reaching the cap is not an error -
the worker always proceeds to checksum verification over the truncated
buffer, and its outcome is decided solely by that comparison. -/
theorem fetch_reads_at_most_cap (cfg : Config) (spec : Spec)
    (env : WorkerEnv) (rels : List IndexVersion) (num : Version)
    (version : IndexVersion)
    (hk : env.krate = some rels)
    (hres : resolve cfg.allowYanked env.parse (spec.versionReq.getD star)
      rels = some (num, version))
    (hcache : (if cfg.cache then env.cacheHit else none) = none) :
    (env.body.take CRATE_SIZE_LIMIT).length ≤ CRATE_SIZE_LIMIT ∧
    Event.verify (env.body.take CRATE_SIZE_LIMIT)
      ∈ (worker cfg spec env).events ∧
    (worker cfg spec env).outcome =
      (if env.digest (env.body.take CRATE_SIZE_LIMIT) == version.checksum
       then Outcome.succeeded else Outcome.userReportedFailure) := by
  refine ⟨by simp [List.length_take], ?_, ?_⟩ <;>
  · unfold worker
    simp only [hk, hres, hcache]
    cases hcl : env.contentLength <;>
      cases hchk : (env.digest (List.take CRATE_SIZE_LIMIT env.body)
        == version.checksum) <;>
      simp only [hcl, hchk] <;>
      cases hex : cfg.extract <;> simp [hex, hchk]

theorem fetch_reads_at_most_cap_witness :
    (goodEnv.body.take CRATE_SIZE_LIMIT).length ≤ CRATE_SIZE_LIMIT ∧
    Event.verify (goodEnv.body.take CRATE_SIZE_LIMIT)
      ∈ (worker fetchCfg demoSpec goodEnv).events ∧
    (worker fetchCfg demoSpec goodEnv).outcome =
      (if goodEnv.digest (goodEnv.body.take CRATE_SIZE_LIMIT)
          == wRel100.checksum
       then Outcome.succeeded else Outcome.userReportedFailure) :=
  fetch_reads_at_most_cap fetchCfg demoSpec goodEnv [wRel100] wV100 wRel100
    rfl resolve_wdemo rfl

/-! ### C7: the up-front output-flag guard -/

/-- C7: with an explicit output path and more than one spec, the run fails
immediately with `cannot use --output with multiple crates`, before any
orchestrator action - no progress display is created, the index is not
touched and no worker (hence no network request) runs: the event list is
empty. -/
theorem output_with_multiple_specs_rejected (cfg : Config)
    (specs : List Spec) (envs : Spec → WorkerEnv)
    (hlen : 2 ≤ specs.length) (hout : cfg.output.isSome = true) :
    run cfg specs envs =
      (.error "cannot use --output with multiple crates", []) := by
  unfold run
  rw [if_pos ⟨hlen, hout⟩]

def outCfg : Config := ⟨false, some "out", false, true⟩

theorem output_with_multiple_specs_rejected_witness :
    run outCfg [demoSpec, demoSpec] (fun _ => goodEnv) =
      (.error "cannot use --output with multiple crates", []) :=
  output_with_multiple_specs_rejected outCfg [demoSpec, demoSpec]
    (fun _ => goodEnv) (by decide) rfl

/-! ### C8: the output-path policy -/

/-- Modelled from the spec: the output-path policy of the acquisition
workflow - use the explicit output when present, else the directory name
`NAME-VERSION` in extract mode, else the file name `NAME-VERSION.crate`. -/
def outputPathSpec (explicitOutput : Option String) (extractFlag : Bool)
    (name vers : String) : String :=
  match explicitOutput with
  | some p => p
  | none =>
      if extractFlag then name ++ "-" ++ vers
      else name ++ "-" ++ vers ++ ".crate"

/-- C8: the output path computed by the worker (src/main.rs lines 186-190)
agrees with the policy stated by the spec, for every configuration and
resolved release. -/
theorem output_path_follows_spec (cfg : Config) (version : IndexVersion) :
    outputPath cfg version =
      outputPathSpec cfg.output cfg.extract version.name version.vers := by
  unfold outputPath outputPathSpec
  cases cfg.output <;> rfl

/-! ### C9: every worker path finalises its line exactly once -/

/-- C9: on each of the seven terminating worker paths - crate not found,
no matching version, checksum mismatch, cache copy, cache extract,
fetched write, fetched extract - exactly one finish is issued on the
worker progress line, and the style in force there is terminal (success
or failure).  The hypothesis restricts attention to those paths: a
readable cached archive on a cache hit (an unreadable one propagates an
I/O error without finishing the line). -/
theorem progress_line_finalized_once (cfg : Config) (spec : Spec)
    (env : WorkerEnv)
    (hread : ∀ p, (if cfg.cache then env.cacheHit else none) = some p →
      (env.fs p).isSome = true) :
    ∃ s, finishStyles .spinner (worker cfg spec env).events = [s] ∧
      (s = Style.success ∨ s = Style.failure) := by
  cases hk : env.krate with
  | none =>
    refine ⟨.failure, ?_, Or.inr rfl⟩
    unfold worker
    simp only [hk]
    simp [finishStyles]
  | some rels =>
    cases hres : resolve cfg.allowYanked env.parse
        (spec.versionReq.getD star) rels with
    | none =>
      refine ⟨.failure, ?_, Or.inr rfl⟩
      unfold worker
      simp only [hk, hres]
      simp [finishStyles]
    | some x =>
      obtain ⟨num, version⟩ := x
      cases hcache : (if cfg.cache then env.cacheHit else none) with
      | some path =>
        cases hfs : env.fs path with
        | none =>
          have := hread path hcache
          rw [hfs] at this
          simp at this
        | some bytes =>
          refine ⟨.success, ?_, Or.inl rfl⟩
          unfold worker
          simp only [hk, hres, hcache, hfs]
          cases hex : cfg.extract <;> simp [hex, finishStyles]
      | none =>
        cases hchk : (env.digest (env.body.take CRATE_SIZE_LIMIT)
            == version.checksum) with
        | false =>
          refine ⟨.failure, ?_, Or.inr rfl⟩
          unfold worker
          simp only [hk, hres, hcache, hchk]
          cases hcl : env.contentLength <;> simp [finishStyles]
        | true =>
          refine ⟨.success, ?_, Or.inl rfl⟩
          unfold worker
          simp only [hk, hres, hcache, hchk]
          cases hcl : env.contentLength <;> cases hex : cfg.extract <;>
            simp [hex, finishStyles]

theorem progress_line_finalized_once_witness :
    ∃ s, finishStyles .spinner (worker fetchCfg demoSpec goodEnv).events
        = [s] ∧
      (s = Style.success ∨ s = Style.failure) :=
  progress_line_finalized_once fetchCfg demoSpec goodEnv
    (fun p h => Option.noConfusion h)

/-! ### C10: existing output files are overwritten silently -/

/-- C10: in non-extract mode, when a file already exists at the computed
output path, both materialisation paths overwrite it silently: the cache
path via `fs::copy` and the fetch path via `fs::write` succeed and
replace the contents of the file with the new bytes. -/
theorem existing_output_overwritten (cfg : Config) (spec : Spec)
    (env : WorkerEnv) (rels : List IndexVersion) (num : Version)
    (version : IndexVersion) (old : List Nat)
    (hk : env.krate = some rels)
    (hres : resolve cfg.allowYanked env.parse (spec.versionReq.getD star)
      rels = some (num, version))
    (hex : cfg.extract = false)
    (hold : env.fs (outputPath cfg version) = some old) :
    (∀ path bytes,
      (if cfg.cache then env.cacheHit else none) = some path →
      env.fs path = some bytes →
      (worker cfg spec env).outcome = .succeeded ∧
      (worker cfg spec env).fs (outputPath cfg version) = some bytes) ∧
    ((if cfg.cache then env.cacheHit else none) = none →
      (env.digest (env.body.take CRATE_SIZE_LIMIT)
        == version.checksum) = true →
      (worker cfg spec env).outcome = .succeeded ∧
      (worker cfg spec env).fs (outputPath cfg version)
        = some (env.body.take CRATE_SIZE_LIMIT)) := by
  constructor
  · intro path bytes hcache hfs
    unfold worker
    simp only [hk, hres, hcache, hfs, hex]
    simp [fsWrite]
  · intro hcache hchk
    unfold worker
    simp only [hk, hres, hcache, hchk, hex]
    cases hcl : env.contentLength <;> simp [fsWrite]

def overwriteEnv : WorkerEnv :=
  ⟨some [wRel100], wParse, some "/cache/c.crate", [], none, fun _ => [0],
   fun p =>
     if p = "/cache/c.crate" then some [9]
     else if p = "demo-1.0.0.crate" then some [1] else none⟩

theorem existing_output_overwritten_witness :
    (∀ path bytes,
      (if cacheCfg.cache then overwriteEnv.cacheHit else none) = some path →
      overwriteEnv.fs path = some bytes →
      (worker cacheCfg demoSpec overwriteEnv).outcome = .succeeded ∧
      (worker cacheCfg demoSpec overwriteEnv).fs
        (outputPath cacheCfg wRel100) = some bytes) ∧
    ((if cacheCfg.cache then overwriteEnv.cacheHit else none) = none →
      (overwriteEnv.digest (overwriteEnv.body.take CRATE_SIZE_LIMIT)
        == wRel100.checksum) = true →
      (worker cacheCfg demoSpec overwriteEnv).outcome = .succeeded ∧
      (worker cacheCfg demoSpec overwriteEnv).fs
        (outputPath cacheCfg wRel100)
        = some (overwriteEnv.body.take CRATE_SIZE_LIMIT)) :=
  existing_output_overwritten cacheCfg demoSpec overwriteEnv [wRel100]
    wV100 wRel100 [1] rfl resolve_wdemo rfl (by decide)
